import Mathlib

/-!
Shallow embedding of `mpc::small_vector<T, N>` (src/small_vector.h).

The container is modelled as a record of its four data members
(`m_size`, `m_capacity`, `m_data`, `m_buffer`) plus an object identity
`obj` standing for the address of the container object itself, so that
`&m_buffer` of distinct containers are distinct addresses.  Heap blocks
obtained from `::operator new` live in an explicit memory `Mem`: an
association list from block ids to slot contents together with a fresh-id
counter.  Raw (unconstructed or destructed) slots keep a `default` value;
only the prefix `[0, m_size)` of the active region is meaningful, exactly
as in the source.
-/

namespace MpcSmallVector

/-- Address of a storage region: the inline buffer of the container object
with identity `obj`, or a heap block with allocation id `id`. -/
inductive Addr where
  | buf (obj : Nat)
  | heap (id : Nat)
deriving DecidableEq, Repr

/-- The heap: live blocks (id, slot contents) plus a fresh-id counter.
A block's contents list has length equal to its slot count. -/
structure Mem (T : Type) where
  blocks : List (Nat × List T)
  nextId : Nat
deriving DecidableEq, Repr

/-- Pad or truncate a list to length `n` (raw slots hold `default`). -/
def padTo [Inhabited T] (n : Nat) (l : List T) : List T :=
  (l ++ List.replicate n default).take n

/-- The empty heap. -/
def Mem.empty {T : Type} : Mem T := ⟨[], 0⟩

/-- `::operator new(slots * sizeof(T))` followed by constructing the given
prefix: returns the fresh block id and the new memory. -/
def Mem.alloc [Inhabited T] (m : Mem T) (slots : Nat) (init : List T) :
    Nat × Mem T :=
  (m.nextId, ⟨m.blocks ++ [(m.nextId, padTo slots init)], m.nextId + 1⟩)

/-- `::operator delete` of the block `id`. -/
def Mem.free {T : Type} (m : Mem T) (id : Nat) : Mem T :=
  ⟨m.blocks.filter (fun p => p.1 ≠ id), m.nextId⟩

/-- Whether block `id` is currently live (allocated and not freed). -/
def Mem.live {T : Type} (m : Mem T) (id : Nat) : Bool :=
  m.blocks.any (fun p => p.1 == id)

/-- Contents of block `id` (empty list if not live). -/
def Mem.readBlock {T : Type} (m : Mem T) (id : Nat) : List T :=
  match m.blocks.find? (fun p => p.1 == id) with
  | some p => p.2
  | none => []

/-- Overwrite the contents of block `id`. -/
def Mem.write {T : Type} (m : Mem T) (id : Nat) (c : List T) : Mem T :=
  ⟨m.blocks.map (fun p => if p.1 = id then (p.1, c) else p), m.nextId⟩

/-- All live block ids are below the fresh-id counter. -/
def Mem.wfb {T : Type} (m : Mem T) : Bool :=
  m.blocks.all (fun p => p.1 < m.nextId)

/-- The container: the four data members of `mpc::small_vector<T, N>`
plus the identity `obj` of the container object (address of `m_buffer`).
`m_buffer` is the raw contents of the N inline slots. -/
structure small_vector (T : Type) (N : Nat) where
  obj : Nat
  m_size : Nat
  m_capacity : Nat
  m_data : Addr
  m_buffer : List T
deriving DecidableEq, Repr

namespace small_vector

variable {T : Type} {N : Nat} [Inhabited T]

/-- `buffer()`: the address of this container's inline buffer. -/
def bufferAddr (s : small_vector T N) : Addr := .buf s.obj

/-- `uses_buffer()`, exactly as implemented: `return m_size <= N;`.
Note this is a size test, not the `m_data == buffer()` comparison. -/
def uses_buffer (s : small_vector T N) : Bool := decide (s.m_size ≤ N)

/-- Contents of the region `m_data` points at.  A pointer into another
container's buffer (never produced by the operations modelled here on
well-formed states) reads as empty. -/
def activeList (s : small_vector T N) (m : Mem T) : List T :=
  match s.m_data with
  | .buf o => if o = s.obj then s.m_buffer else []
  | .heap id => m.readBlock id

/-- The live elements: the constructed prefix `[0, m_size)` of the active
region. -/
def elemsIn (s : small_vector T N) (m : Mem T) : List T :=
  (s.activeList m).take s.m_size

/-- `operator[]`: unchecked read of slot `i` of the active region. -/
def read (s : small_vector T N) (m : Mem T) (i : Nat) : T :=
  (s.activeList m).getD i default

/-- Default constructor: `m_size(0), m_capacity(N), m_data(buffer())`.
`g` is the arbitrary raw content of the uninitialized inline buffer. -/
def new (obj : Nat) (g : List T) : small_vector T N :=
  ⟨obj, 0, N, .buf obj, padTo N g⟩

/-- `clear()`: destroy the live elements and set `m_size = 0` (destructed
slots revert to raw storage; their bytes are not observable). -/
def clear (s : small_vector T N) : small_vector T N := { s with m_size := 0 }

/-- Initializer-list constructor: `m_size(init.size())`,
`m_capacity(m_size)`, `m_data(m_capacity > N ? operator new(...) : buffer())`,
then `std::uninitialized_copy` of the list into `m_data`. -/
def ofList (obj : Nat) (g : List T) (l : List T) (m : Mem T) :
    small_vector T N × Mem T :=
  if l.length > N then
    (⟨obj, l.length, l.length, .heap (m.alloc l.length l).1, padTo N g⟩,
      (m.alloc l.length l).2)
  else
    (⟨obj, l.length, l.length, .buf obj, l ++ (padTo N g).drop l.length⟩, m)

/-- Result of `reserve` when each element construction may fail:
the source's try/catch is modelled by recording whether the call threw,
how many elements were constructed in the new block, how many of those the
catch block destroyed, and which regions were freed. -/
structure ReserveOut (T : Type) (N : Nat) where
  sv : small_vector T N
  mem : Mem T
  threw : Bool
  constructedInNew : Nat
  destroyedInNew : Nat
  freedNew : Bool
  freedOld : Bool
deriving Repr

/-- First index `i < n` at which construction fails. -/
def firstFail (failAt : Nat → Bool) (n : Nat) : Option Nat :=
  (List.range n).find? failAt

/-- `reserve(capacity)` with a fallible element move/copy construction:
`failAt i` says constructing the `i`-th element in the new block throws.
Faithful to the source, including the misplaced `::operator delete(tmp);
throw;` inside the rollback loop of the catch block (so a failure at
index 0 is silently swallowed and the code falls through to the adopt
phase), and the `clear()` before the `!uses_buffer()` test on the success
path (so the old heap block is never freed). -/
def reserveF (failAt : Nat → Bool) (s : small_vector T N) (m : Mem T)
    (cap : Nat) : ReserveOut T N :=
  if cap ≤ s.m_capacity then
    ⟨s, m, false, 0, 0, false, false⟩
  else
    match firstFail failAt s.m_size with
    | none =>
      -- all m_size constructions succeed; then clear(),
      -- `if (!uses_buffer()) operator delete(m_data)`, adopt tmp
      let a := m.alloc cap (s.elemsIn m)
      let freedOld := !(clear s).uses_buffer
      let m2 :=
        if freedOld then
          match s.m_data with
          | .heap oid => a.2.free oid
          | .buf _ => a.2
        else a.2
      ⟨⟨s.obj, s.m_size, cap, .heap a.1, s.m_buffer⟩, m2, false,
        s.m_size, 0, false, freedOld⟩
    | some k =>
      if k = 0 then
        -- catch: the rollback loop body never runs, so nothing is
        -- rethrown; control falls through to the adopt phase with i = 0
        let a := m.alloc cap []
        ⟨⟨s.obj, 0, cap, .heap a.1, s.m_buffer⟩, a.2, false, 0, 0, false,
          false⟩
      else
        -- catch: first loop iteration destroys tmp[k-1], frees tmp and
        -- rethrows, leaving tmp[0..k-2] undestroyed
        let a := m.alloc cap ((s.elemsIn m).take k)
        ⟨s, a.2.free a.1, true, k, 1, true, false⟩

/-- `reserve(capacity)` for an element type whose construction does not
fail. -/
def reserve (s : small_vector T N) (m : Mem T) (cap : Nat) :
    small_vector T N × Mem T :=
  let r := s.reserveF (fun _ => false) m cap
  (r.sv, r.mem)

/-- Write `v` into slot `i` of a raw-storage list (placement new). -/
def writeSlot [Inhabited T] (l : List T) (i : Nat) (v : T) : List T :=
  l.set i v

/-- The growth step at the head of `emplace_back`:
`if (m_size >= m_capacity) reserve(m_capacity == 0 ? 1 : 2 * m_capacity);`. -/
def growIfFull (s : small_vector T N) (m : Mem T) :
    small_vector T N × Mem T :=
  if s.m_capacity ≤ s.m_size then
    s.reserve m (if s.m_capacity = 0 then 1 else 2 * s.m_capacity)
  else (s, m)

/-- `new (m_data + m_size) value_type(...); return m_data[m_size++];`:
placement-construct `v` in slot `m_size` of the active region and bump
the size. -/
def construct_at (s : small_vector T N) (m : Mem T) (v : T) :
    small_vector T N × Mem T :=
  match s.m_data with
  | .buf o =>
    if o = s.obj then
      ({ s with m_buffer := writeSlot s.m_buffer s.m_size v,
                m_size := s.m_size + 1 }, m)
    else
      ({ s with m_size := s.m_size + 1 }, m)
  | .heap id =>
    ({ s with m_size := s.m_size + 1 },
      m.write id (writeSlot (m.readBlock id) s.m_size v))

/-- `emplace_back(args...)` / `push_back(item)` for a non-failing element
construction: grow if `m_size >= m_capacity`, then placement-new at
`m_data + m_size` and increment `m_size`. -/
def emplace_back (s : small_vector T N) (m : Mem T) (v : T) :
    small_vector T N × Mem T :=
  construct_at (growIfFull s m).1 (growIfFull s m).2 v

/-- `emplace_back` where the construction of the new element itself may
throw (`ctorFails`); the growth step (if any) completes first.  Returns
the state, memory and whether the call threw. -/
def emplaceF (ctorFails : Bool) (s : small_vector T N) (m : Mem T) (v : T) :
    small_vector T N × Mem T × Bool :=
  if ctorFails then ((growIfFull s m).1, (growIfFull s m).2, true)
  else ((emplace_back s m v).1, (emplace_back s m v).2, false)

/-- The `for (i = m_size; i < size; ++i) push_back(value);` loop of
`resize`, as `count` repeated appends. -/
def pushLoop (v : T) : Nat → small_vector T N → Mem T →
    small_vector T N × Mem T
  | 0, s, m => (s, m)
  | c + 1, s, m =>
    let p := s.emplace_back m v
    pushLoop v c p.1 p.2

/-- `resize(size, value)`. -/
def resize (s : small_vector T N) (m : Mem T) (sz : Nat) (v : T) :
    small_vector T N × Mem T :=
  if sz = s.m_size then (s, m)
  else if s.m_size < sz then
    pushLoop v (sz - (s.reserve m sz).1.m_size) (s.reserve m sz).1
      (s.reserve m sz).2
  else ({ s with m_size := sz }, m)

/-- `swap(other)`: the four branches on `uses_buffer()` of each side,
then the unconditional exchange of `m_capacity` and `m_size`. -/
def swap (a b : small_vector T N) :
    small_vector T N × small_vector T N :=
  let p : small_vector T N × small_vector T N :=
    if a.uses_buffer && b.uses_buffer then
      ({ a with m_buffer := b.m_buffer }, { b with m_buffer := a.m_buffer })
    else if a.uses_buffer then
      ({ a with m_buffer := b.m_buffer, m_data := b.m_data },
       { b with m_buffer := a.m_buffer, m_data := .buf b.obj })
    else if b.uses_buffer then
      ({ a with m_buffer := b.m_buffer, m_data := .buf a.obj },
       { b with m_buffer := a.m_buffer, m_data := a.m_data })
    else
      ({ a with m_data := b.m_data }, { b with m_data := a.m_data })
  ({ p.1 with m_capacity := b.m_capacity, m_size := b.m_size },
   { p.2 with m_capacity := a.m_capacity, m_size := a.m_size })

/-- Move constructor: `m_size(other.size()), m_capacity(other.capacity()),
m_data(buffer())`, then either a buffer swap or a pointer transfer
depending on `other.uses_buffer()`, then the source is reset to the empty
buffer-backed state.  `obj`/`g` are the identity and raw buffer content of
the newly constructed target. -/
def moveCtor (obj : Nat) (g : List T) (src : small_vector T N) :
    small_vector T N × small_vector T N :=
  if src.uses_buffer then
    (⟨obj, src.m_size, src.m_capacity, .buf obj, src.m_buffer⟩,
     ⟨src.obj, 0, N, .buf src.obj, padTo N g⟩)
  else
    (⟨obj, src.m_size, src.m_capacity, src.m_data, padTo N g⟩,
     ⟨src.obj, 0, N, .buf src.obj, src.m_buffer⟩)

/-- The copy constructor's `for (i...) push_back(other[i])` loop. -/
def copyLoop (src : small_vector T N) :
    Nat → Nat → small_vector T N → Mem T → small_vector T N × Mem T
  | _, 0, t, m => (t, m)
  | i, c + 1, t, m =>
    let p := t.emplace_back m (src.read m i)
    copyLoop src (i + 1) c p.1 p.2

/-- Copy constructor: delegate to the default constructor, reserve if
`other.size() > m_capacity` (which is `N` at that point), then copy-append
every source element. -/
def copyCtor (obj : Nat) (g : List T) (src : small_vector T N) (m : Mem T) :
    small_vector T N × Mem T :=
  if (new obj g : small_vector T N).m_capacity < src.m_size then
    copyLoop src 0 src.m_size
      ((new obj g : small_vector T N).reserve m src.m_size).1
      ((new obj g : small_vector T N).reserve m src.m_size).2
  else
    copyLoop src 0 src.m_size (new obj g) m

/-- Destructor: `clear();  if (!uses_buffer()) operator delete(m_data);`.
Returns the memory afterwards and whether the delete branch ran. -/
def destruct (s : small_vector T N) (m : Mem T) : Mem T × Bool :=
  if !(clear s).uses_buffer then
    match s.m_data with
    | .heap id => (m.free id, true)
    | .buf _ => (m, true)
  else (m, false)

/-- Well-formedness of a container state together with the memory: the
invariants every non-corrupted state satisfies. -/
def wfb (s : small_vector T N) (m : Mem T) : Bool :=
  decide (s.m_size ≤ s.m_capacity) && (s.m_buffer.length == N) && m.wfb &&
  (match s.m_data with
   | .buf o => (o == s.obj) && decide (s.m_capacity ≤ N)
   | .heap id => m.live id && ((m.readBlock id).length == s.m_capacity))

/-- The facts about the active region needed to write into it: it is the
container's own full-length inline buffer, or a live heap block whose
slot count is the capacity. -/
def regionOK (s : small_vector T N) (m : Mem T) : Prop :=
  (s.m_data = .buf s.obj ∧ s.m_buffer.length = N ∧ s.m_capacity ≤ N) ∨
  (∃ id, s.m_data = .heap id ∧ m.live id = true ∧
    (m.readBlock id).length = s.m_capacity)

end small_vector

/-- States reachable through construction (default or initializer-list)
and the single-container mutators (`push_back`/`emplace_back`, `reserve`,
`resize`, `clear`), i.e. without `swap` or move construction. -/
inductive ReachCore (T : Type) [Inhabited T] (N : Nat) :
    small_vector T N → Mem T → Prop where
  | newSV (obj : Nat) (g : List T) (m : Mem T) :
      ReachCore T N (small_vector.new obj g) m
  | ofListSV (obj : Nat) (g l : List T) (m : Mem T) :
      ReachCore T N (small_vector.ofList obj g l m).1
        (small_vector.ofList obj g l m).2
  | pushStep (s : small_vector T N) (m : Mem T) (v : T) :
      ReachCore T N s m →
      ReachCore T N (s.emplace_back m v).1 (s.emplace_back m v).2
  | reserveStep (s : small_vector T N) (m : Mem T) (c : Nat) :
      ReachCore T N s m →
      ReachCore T N (s.reserve m c).1 (s.reserve m c).2
  | resizeStep (s : small_vector T N) (m : Mem T) (k : Nat) (v : T) :
      ReachCore T N s m →
      ReachCore T N (s.resize m k v).1 (s.resize m k v).2
  | clearStep (s : small_vector T N) (m : Mem T) :
      ReachCore T N s m → ReachCore T N s.clear m

namespace Traces

open small_vector

/-- C1/C4 trace: a default-constructed `small_vector<Nat, 2>` after
`reserve(5)` — heap-backed with `m_size = 0`. -/
def rsv : small_vector Nat 2 × Mem Nat :=
  (small_vector.new 0 []).reserve Mem.empty 5

/-- C3 trace: three appends into a default `small_vector<Nat, 2>`,
forcing one growth to a heap block. -/
def pp1 : small_vector Nat 2 × Mem Nat :=
  (small_vector.new 0 []).emplace_back Mem.empty 1

def pp2 : small_vector Nat 2 × Mem Nat := pp1.1.emplace_back pp1.2 2

def pp3 : small_vector Nat 2 × Mem Nat := pp2.1.emplace_back pp2.2 3

/-- C2 trace: `small_vector<Nat, 4>{10, 20, 30}` (buffer-backed). -/
def ls0 : small_vector Nat 4 × Mem Nat :=
  small_vector.ofList 0 [] [10, 20, 30] Mem.empty

/-- C5/C6 trace: `small_vector<Nat, 2> a{1,2,3}` (heap) then
`a.resize(1)` — heap-backed with `m_size = 1 ≤ N`. -/
def av0 : small_vector Nat 2 × Mem Nat :=
  small_vector.ofList 0 [] [1, 2, 3] Mem.empty

def av1 : small_vector Nat 2 × Mem Nat := av0.1.resize av0.2 1 0

/-- C5 trace: `small_vector<Nat, 2> b{4,5,6}` (heap-backed). -/
def bv0 : small_vector Nat 2 × Mem Nat :=
  small_vector.ofList 1 [] [4, 5, 6] av1.2

def sw1 : small_vector Nat 2 × small_vector Nat 2 := av1.1.swap bv0.1

def sw2 : small_vector Nat 2 × small_vector Nat 2 := sw1.1.swap sw1.2

/-- C6 trace: move construction from the heap-backed, size-1 `a`. -/
def mv : small_vector Nat 2 × small_vector Nat 2 := moveCtor 5 [] av1.1

/-- C4 counterexample trace: `small_vector<Nat, 4>{1, 2}` — buffer-backed
with capacity 2. -/
def cl0 : small_vector Nat 4 × Mem Nat :=
  small_vector.ofList 0 [] [1, 2] Mem.empty

end Traces

section Invariant

open small_vector

variable {T : Type} {N : Nat} [Inhabited T]

/-- Constructing the first `n` elements never fails when no construction
can fail. -/
theorem firstFail_false (n : Nat) : firstFail (fun _ => false) n = none := by
  simp [firstFail, List.find?_eq_none]

/-- The buffer-mode capacity bound is preserved by `reserve`. -/
theorem reserve_buf_inv (s : small_vector T N) (m : Mem T) (c : Nat)
    (h : s.m_data = .buf s.obj → s.m_capacity ≤ N) :
    (s.reserve m c).1.m_data = .buf (s.reserve m c).1.obj →
      (s.reserve m c).1.m_capacity ≤ N := by
  unfold reserve reserveF
  split
  · exact h
  · rw [firstFail_false]
    intro hb
    simp at hb

/-- The placement-construction step changes only `m_size` and the slot
contents: the object identity, capacity and active-region pointer are
untouched. -/
theorem construct_at_fields (s : small_vector T N) (m : Mem T) (v : T) :
    (construct_at s m v).1.obj = s.obj ∧
    (construct_at s m v).1.m_capacity = s.m_capacity ∧
    (construct_at s m v).1.m_data = s.m_data ∧
    (construct_at s m v).1.m_size = s.m_size + 1 := by
  unfold construct_at
  cases hd : s.m_data with
  | buf o => by_cases ho : o = s.obj <;> simp [ho]
  | heap id => simp

/-- The buffer-mode capacity bound is preserved by the growth step. -/
theorem growIfFull_buf_inv (s : small_vector T N) (m : Mem T)
    (h : s.m_data = .buf s.obj → s.m_capacity ≤ N) :
    (growIfFull s m).1.m_data = .buf (growIfFull s m).1.obj →
      (growIfFull s m).1.m_capacity ≤ N := by
  unfold growIfFull
  split
  · exact reserve_buf_inv s m _ h
  · exact h

/-- The buffer-mode capacity bound is preserved by `emplace_back`. -/
theorem emplace_buf_inv (s : small_vector T N) (m : Mem T) (v : T)
    (h : s.m_data = .buf s.obj → s.m_capacity ≤ N) :
    (s.emplace_back m v).1.m_data = .buf (s.emplace_back m v).1.obj →
      (s.emplace_back m v).1.m_capacity ≤ N := by
  intro hb
  have hf := construct_at_fields (growIfFull s m).1 (growIfFull s m).2 v
  show (construct_at (growIfFull s m).1 (growIfFull s m).2 v).1.m_capacity ≤ N
  rw [hf.2.1]
  apply growIfFull_buf_inv s m h
  rw [← hf.1, ← hf.2.2.1]
  exact hb

/-- The buffer-mode capacity bound is preserved by the `resize` append
loop. -/
theorem pushLoop_buf_inv (v : T) (c : Nat) :
    ∀ (s : small_vector T N) (m : Mem T),
    (s.m_data = .buf s.obj → s.m_capacity ≤ N) →
    ((pushLoop v c s m).1.m_data = .buf (pushLoop v c s m).1.obj →
      (pushLoop v c s m).1.m_capacity ≤ N) := by
  induction c with
  | zero => intro s m h; exact h
  | succ n ih =>
    intro s m h
    exact ih _ _ (emplace_buf_inv s m v h)

/-- Claim C4, amended: in every container state reachable without `swap`
or move construction, if `m_data` points at the container's own inline
buffer then `m_capacity ≤ N`; it equals `N` except after the
initializer-list constructor, which sets the capacity to the list
length. -/
theorem c4_buffer_mode_capacity_le_N (s : small_vector T N) (m : Mem T)
    (h : ReachCore T N s m) :
    s.m_data = .buf s.obj → s.m_capacity ≤ N := by
  induction h with
  | newSV obj g m => intro _; exact Nat.le_refl N
  | ofListSV obj g l m =>
    unfold small_vector.ofList
    split
    · intro hb; simp at hb
    · next hle =>
      intro _
      show l.length ≤ N
      exact Nat.le_of_not_lt hle
  | pushStep s m v _ ih => exact emplace_buf_inv s m v ih
  | reserveStep s m c _ ih => exact reserve_buf_inv s m c ih
  | resizeStep s m k v _ ih =>
    unfold small_vector.resize
    split
    · exact ih
    · split
      · exact pushLoop_buf_inv v _ _ _ (reserve_buf_inv s m k ih)
      · exact ih
  | clearStep s m _ ih => exact ih

end Invariant

section Lemmas

open small_vector

variable {T : Type} {N : Nat} [Inhabited T]

theorem padTo_length (n : Nat) (l : List T) : (padTo n l).length = n := by
  simp [padTo]

theorem padTo_eq_self (n : Nat) (l : List T) (h : l.length = n) :
    padTo n l = l := by
  subst h
  exact List.take_left' rfl

theorem padTo_eq_append (c : Nat) (l : List T) (h : l.length ≤ c) :
    padTo c l = l ++ List.replicate (c - l.length) default := by
  simp [padTo, List.take_append_eq_append_take, List.take_replicate,
    List.take_of_length_le h, Nat.min_def]

theorem take_padTo_eq (c k : Nat) (l : List T) (hl : l.length = k)
    (hkc : k ≤ c) : (padTo c l).take k = l := by
  rw [padTo_eq_append c l (hl ▸ hkc), ← hl]
  exact List.take_left' rfl

theorem take_succ_set (v : T) :
    ∀ (l : List T) (i : Nat), i < l.length →
      (l.set i v).take (i + 1) = l.take i ++ [v] := by
  intro l
  induction l with
  | nil => intro i h; simp at h
  | cons a t ih =>
    intro i h
    cases i with
    | zero => simp
    | succ j =>
      have hj : j < t.length := by simpa using h
      simp [List.set, ih j hj]

theorem map_read_range (l : List T) :
    ∀ n : Nat, n ≤ l.length →
      (List.range n).map (fun j => l.getD j default) = l.take n := by
  intro n
  induction n with
  | zero => intro _; simp
  | succ k ih =>
    intro h
    have hk : k < l.length := by omega
    rw [List.range_succ, List.map_append, ih (by omega), List.take_succ]
    simp [List.getD_eq_getElem?_getD, List.getElem?_eq_getElem hk]

theorem Mem.readBlock_alloc_self (m : Mem T) (slots : Nat) (init : List T)
    (hm : m.wfb = true) :
    ((m.alloc slots init).2).readBlock (m.alloc slots init).1 =
      padTo slots init := by
  unfold Mem.alloc Mem.readBlock
  rw [List.find?_append]
  have h1 : m.blocks.find? (fun p => p.1 == m.nextId) = none := by
    rw [List.find?_eq_none]
    intro x hx
    have hx' := List.all_eq_true.mp hm x hx
    simp at hx' ⊢
    omega
  rw [h1]
  simp [List.find?]

theorem Mem.readBlock_alloc_self' (m : Mem T) (slots : Nat) (init : List T)
    (hm : m.wfb = true) :
    ((m.alloc slots init).2).readBlock m.nextId = padTo slots init :=
  Mem.readBlock_alloc_self m slots init hm

theorem Mem.readBlock_alloc_ne (m : Mem T) (slots : Nat) (init : List T)
    (id : Nat) (h : id ≠ m.nextId) :
    ((m.alloc slots init).2).readBlock id = m.readBlock id := by
  unfold Mem.alloc Mem.readBlock
  rw [List.find?_append]
  cases hf : m.blocks.find? (fun p => p.1 == id) with
  | some p => simp [hf]
  | none =>
    have : (m.nextId == id) = false := by simp; omega
    simp [hf, List.find?, this]

theorem Mem.live_alloc (m : Mem T) (slots : Nat) (init : List T)
    (id : Nat) :
    ((m.alloc slots init).2).live id = (m.live id || (m.nextId == id)) := by
  unfold Mem.alloc Mem.live
  rw [List.any_append]
  simp

theorem Mem.live_imp_lt (m : Mem T) (id : Nat) (hm : m.wfb = true)
    (hl : m.live id = true) : id < m.nextId := by
  unfold Mem.live at hl
  obtain ⟨x, hx, hpx⟩ := List.any_eq_true.mp hl
  have hx' := List.all_eq_true.mp hm x hx
  simp at hpx hx'
  omega

theorem Mem.wfb_alloc (m : Mem T) (slots : Nat) (init : List T)
    (hm : m.wfb = true) : ((m.alloc slots init).2).wfb = true := by
  rw [Mem.wfb, List.all_eq_true] at hm
  rw [Mem.wfb, List.all_eq_true]
  intro x hx
  simp only [Mem.alloc, List.mem_append, List.mem_singleton] at hx
  simp only [Mem.alloc]
  rcases hx with hx | hx
  · have := hm x hx
    simp at this ⊢
    omega
  · subst hx
    simp

theorem find?_map_write (id : Nat) (c : List T) :
    ∀ bs : List (Nat × List T),
      bs.any (fun p => p.1 == id) = true →
      (bs.map (fun p => if p.1 = id then (p.1, c) else p)).find?
        (fun p => p.1 == id) = some (id, c) := by
  intro bs
  induction bs with
  | nil => intro h; simp at h
  | cons b t ih =>
    intro h
    rw [List.map_cons]
    by_cases hb : b.1 = id
    · rw [if_pos hb]
      rw [List.find?_cons_of_pos _ (by simp [hb])]
      rw [hb]
    · rw [if_neg hb]
      rw [List.find?_cons_of_neg _ (by simp [hb])]
      have ht : t.any (fun p => p.1 == id) = true := by
        rw [List.any_cons] at h
        have hbe : (b.1 == id) = false := by simp [hb]
        rw [hbe] at h
        simpa using h
      exact ih ht

theorem find?_map_write_ne (id q : Nat) (c : List T) (h : q ≠ id) :
    ∀ bs : List (Nat × List T),
      (bs.map (fun p => if p.1 = id then (p.1, c) else p)).find?
        (fun p => p.1 == q) = bs.find? (fun p => p.1 == q) := by
  intro bs
  induction bs with
  | nil => simp
  | cons b t ih =>
    rw [List.map_cons]
    by_cases hb : b.1 = id
    · have hq : (b.1 == q) = false := by simp; omega
      rw [if_pos hb]
      rw [List.find?_cons_of_neg _ (by simp; omega)]
      rw [List.find?_cons_of_neg _ (by simp [hq])]
      exact ih
    · by_cases hbq : b.1 = q
      · rw [if_neg hb]
        rw [List.find?_cons_of_pos _ (by simp [hbq])]
        rw [List.find?_cons_of_pos _ (by simp [hbq])]
      · rw [if_neg hb]
        rw [List.find?_cons_of_neg _ (by simp [hbq])]
        rw [List.find?_cons_of_neg _ (by simp [hbq])]
        exact ih

theorem any_map_write (q id : Nat) (c : List T) :
    ∀ bs : List (Nat × List T),
      (bs.map (fun p => if p.1 = id then (p.1, c) else p)).any
        (fun p => p.1 == q) = bs.any (fun p => p.1 == q) := by
  intro bs
  induction bs with
  | nil => simp
  | cons b t ih => by_cases hb : b.1 = id <;> simp [hb, ih]

theorem Mem.readBlock_write_self (m : Mem T) (id : Nat) (c : List T)
    (h : m.live id = true) : (m.write id c).readBlock id = c := by
  unfold Mem.write Mem.readBlock
  rw [find?_map_write id c m.blocks h]

theorem Mem.readBlock_write_ne (m : Mem T) (id q : Nat) (c : List T)
    (h : q ≠ id) : (m.write id c).readBlock q = m.readBlock q := by
  unfold Mem.write Mem.readBlock
  rw [find?_map_write_ne id q c h m.blocks]

theorem Mem.live_write (m : Mem T) (id q : Nat) (c : List T) :
    (m.write id c).live q = m.live q := by
  unfold Mem.write Mem.live
  exact any_map_write q id c m.blocks

theorem Mem.wfb_write (m : Mem T) (id : Nat) (c : List T)
    (hm : m.wfb = true) : (m.write id c).wfb = true := by
  unfold Mem.write Mem.wfb
  rw [List.all_map]
  rw [Mem.wfb] at hm
  rw [List.all_eq_true] at hm ⊢
  intro x hx
  have := hm x hx
  by_cases h1 : x.1 = id <;> simp [h1] at this ⊢ <;> omega

theorem reserve_eq_of_le (s : small_vector T N) (m : Mem T) (c : Nat)
    (h : c ≤ s.m_capacity) : s.reserve m c = (s, m) := by
  unfold small_vector.reserve small_vector.reserveF
  rw [if_pos h]

theorem reserve_eq_of_lt (s : small_vector T N) (m : Mem T) (c : Nat)
    (h : s.m_capacity < c) :
    s.reserve m c =
      (⟨s.obj, s.m_size, c, .heap m.nextId, s.m_buffer⟩,
        (m.alloc c (s.elemsIn m)).2) := by
  unfold small_vector.reserve small_vector.reserveF
  rw [if_neg (by omega), firstFail_false]
  simp [small_vector.clear, small_vector.uses_buffer, Mem.alloc]

theorem wfb_size_le (s : small_vector T N) (m : Mem T)
    (h : s.wfb m = true) : s.m_size ≤ s.m_capacity := by
  unfold small_vector.wfb at h
  cases hd : s.m_data <;> rw [hd] at h <;> simp at h <;> exact h.1.1.1

theorem wfb_buffer_len (s : small_vector T N) (m : Mem T)
    (h : s.wfb m = true) : s.m_buffer.length = N := by
  unfold small_vector.wfb at h
  cases hd : s.m_data <;> rw [hd] at h <;> simp at h <;> exact h.1.1.2

theorem wfb_mem (s : small_vector T N) (m : Mem T)
    (h : s.wfb m = true) : m.wfb = true := by
  unfold small_vector.wfb at h
  cases hd : s.m_data <;> rw [hd] at h <;> simp at h <;> exact h.1.2

theorem wfb_buf (s : small_vector T N) (m : Mem T) (o : Nat)
    (h : s.wfb m = true) (hd : s.m_data = .buf o) :
    o = s.obj ∧ s.m_capacity ≤ N := by
  unfold small_vector.wfb at h
  rw [hd] at h
  simp at h
  exact h.2

theorem wfb_heap (s : small_vector T N) (m : Mem T) (id : Nat)
    (h : s.wfb m = true) (hd : s.m_data = .heap id) :
    m.live id = true ∧ (m.readBlock id).length = s.m_capacity := by
  unfold small_vector.wfb at h
  rw [hd] at h
  simp at h
  exact h.2

theorem wfb_regionOK (s : small_vector T N) (m : Mem T)
    (h : s.wfb m = true) : s.regionOK m := by
  cases hd : s.m_data with
  | buf o =>
    obtain ⟨ho, hc⟩ := wfb_buf s m o h hd
    exact Or.inl ⟨by rw [hd, ho], wfb_buffer_len s m h, hc⟩
  | heap id =>
    obtain ⟨hl, hlen⟩ := wfb_heap s m id h hd
    exact Or.inr ⟨id, hd, hl, hlen⟩

theorem activeList_len_ge (s : small_vector T N) (m : Mem T)
    (h : s.wfb m = true) : s.m_size ≤ (s.activeList m).length := by
  cases hd : s.m_data with
  | buf o =>
    obtain ⟨ho, hc⟩ := wfb_buf s m o h hd
    have hlen := wfb_buffer_len s m h
    have hsz := wfb_size_le s m h
    simp [activeList, hd, ho, hlen]
    omega
  | heap id =>
    obtain ⟨_, hlen⟩ := wfb_heap s m id h hd
    have hsz := wfb_size_le s m h
    simp [activeList, hd, hlen]
    omega

theorem elemsIn_length (s : small_vector T N) (m : Mem T)
    (h : s.wfb m = true) : (s.elemsIn m).length = s.m_size := by
  unfold small_vector.elemsIn
  rw [List.length_take]
  have := activeList_len_ge s m h
  omega

theorem grow_cap_lt (c : Nat) : c < (if c = 0 then 1 else 2 * c) := by
  split <;> omega

theorem growIfFull_eq_of_full (t : small_vector T N) (m : Mem T)
    (h : t.m_capacity ≤ t.m_size) :
    growIfFull t m =
      t.reserve m (if t.m_capacity = 0 then 1 else 2 * t.m_capacity) := by
  unfold growIfFull
  rw [if_pos h]

theorem growIfFull_eq_of_room (t : small_vector T N) (m : Mem T)
    (h : t.m_size < t.m_capacity) : growIfFull t m = (t, m) := by
  unfold growIfFull
  rw [if_neg (by omega)]

theorem read_congr (b : small_vector T N) (m1 m2 : Mem T)
    (h : b.activeList m1 = b.activeList m2) (i : Nat) :
    b.read m1 i = b.read m2 i := by
  unfold small_vector.read
  rw [h]

theorem readBlock_construct_ne (a : small_vector T N) (m : Mem T) (v : T)
    (id : Nat) (h : a.m_data ≠ .heap id) :
    ((construct_at a m v).2).readBlock id = m.readBlock id := by
  unfold construct_at
  cases hd : a.m_data with
  | buf o =>
    simp only [hd]
    by_cases ho : o = a.obj <;> simp [ho]
  | heap q =>
    simp only [hd]
    exact Mem.readBlock_write_ne _ _ _ _ (by
      intro he
      exact h (by rw [hd, he]))

theorem readBlock_emplace_ne (a : small_vector T N) (m : Mem T) (v : T)
    (id : Nat) (hid : id < m.nextId) (hane : a.m_data ≠ .heap id) :
    ((a.emplace_back m v).2).readBlock id = m.readBlock id := by
  unfold emplace_back
  by_cases hfull : a.m_capacity ≤ a.m_size
  · rw [growIfFull_eq_of_full a m hfull,
      reserve_eq_of_lt a m _ (grow_cap_lt _)]
    simp only [construct_at]
    rw [Mem.readBlock_write_ne _ _ _ _ (by omega),
      Mem.readBlock_alloc_ne _ _ _ _ (by omega)]
  · rw [growIfFull_eq_of_room a m (by omega)]
    exact readBlock_construct_ne a m v id hane

theorem activeList_emplace_other (a b : small_vector T N) (m : Mem T)
    (v : T) (hm : m.wfb = true)
    (hlive : ∀ id, b.m_data = .heap id → m.live id = true)
    (hne : a.m_data ≠ b.m_data) :
    b.activeList ((a.emplace_back m v).2) = b.activeList m := by
  cases hb : b.m_data with
  | buf o => unfold activeList; simp only [hb]
  | heap id =>
    unfold activeList
    simp only [hb]
    exact readBlock_emplace_ne a m v id
      (Mem.live_imp_lt m id hm (hlive id hb)) (hb ▸ hne)

theorem elemsIn_emplace_other (a b : small_vector T N) (m : Mem T)
    (v : T) (hm : m.wfb = true)
    (hlive : ∀ id, b.m_data = .heap id → m.live id = true)
    (hne : a.m_data ≠ b.m_data) :
    b.elemsIn ((a.emplace_back m v).2) = b.elemsIn m := by
  unfold small_vector.elemsIn
  rw [activeList_emplace_other a b m v hm hlive hne]

theorem activeList_alloc_other (b : small_vector T N) (m : Mem T)
    (slots : Nat) (init : List T) (hm : m.wfb = true)
    (hlive : ∀ id, b.m_data = .heap id → m.live id = true) :
    b.activeList ((m.alloc slots init).2) = b.activeList m := by
  cases hb : b.m_data with
  | buf o => unfold activeList; simp only [hb]
  | heap id =>
    unfold activeList
    simp only [hb]
    exact Mem.readBlock_alloc_ne m slots init id
      (by have := Mem.live_imp_lt m id hm (hlive id hb); omega)

/-- `emplace_back` without a growth step (`m_size < m_capacity`): the
appended element lands in slot `m_size` of the unchanged region, and
nothing else in the memory moves. -/
theorem emplace_no_grow (t : small_vector T N) (m : Mem T) (v : T)
    (hroom : t.m_size < t.m_capacity) (hreg : t.regionOK m)
    (hm : m.wfb = true) :
    (t.emplace_back m v).1.obj = t.obj ∧
    (t.emplace_back m v).1.m_capacity = t.m_capacity ∧
    (t.emplace_back m v).1.m_data = t.m_data ∧
    (t.emplace_back m v).1.m_size = t.m_size + 1 ∧
    (t.emplace_back m v).1.elemsIn ((t.emplace_back m v).2) =
      t.elemsIn m ++ [v] ∧
    ((t.emplace_back m v).2).wfb = true ∧
    (t.emplace_back m v).1.regionOK ((t.emplace_back m v).2) ∧
    (∀ id, m.live id = true → ((t.emplace_back m v).2).live id = true) ∧
    (∀ b : small_vector T N, b.m_data ≠ t.m_data →
      b.activeList ((t.emplace_back m v).2) = b.activeList m) := by
  have he : t.emplace_back m v = construct_at t m v := by
    unfold emplace_back
    rw [growIfFull_eq_of_room t m hroom]
  rw [he]
  rcases hreg with ⟨hbuf, hlen, hcapN⟩ | ⟨id, hheap, hlive, hlenh⟩
  · -- buffer-backed target
    have hc : construct_at t m v =
        ({ t with m_buffer := writeSlot t.m_buffer t.m_size v,
                  m_size := t.m_size + 1 }, m) := by
      unfold construct_at
      simp only [hbuf, if_true]
    rw [hc]
    have hslt : t.m_size < t.m_buffer.length := by omega
    refine ⟨rfl, rfl, rfl, rfl, ?_, hm, ?_, fun id hl => hl, fun b _ => ?_⟩
    · unfold small_vector.elemsIn activeList
      simp only [hbuf, if_true]
      exact take_succ_set v t.m_buffer t.m_size hslt
    · exact Or.inl ⟨hbuf, by simp [writeSlot, hlen], hcapN⟩
    · rfl
  · -- heap-backed target
    have hc : construct_at t m v =
        ({ t with m_size := t.m_size + 1 },
          m.write id (writeSlot (m.readBlock id) t.m_size v)) := by
      unfold construct_at
      simp only [hheap]
    rw [hc]
    have hslt : t.m_size < (m.readBlock id).length := by omega
    refine ⟨rfl, rfl, rfl, rfl, ?_, Mem.wfb_write m id _ hm, ?_, ?_, ?_⟩
    · unfold small_vector.elemsIn activeList
      simp only [hheap]
      rw [Mem.readBlock_write_self m id _ hlive]
      exact take_succ_set v (m.readBlock id) t.m_size hslt
    · refine Or.inr ⟨id, hheap, ?_, ?_⟩
      · rw [Mem.live_write]; exact hlive
      · rw [Mem.readBlock_write_self m id _ hlive]
        simp [writeSlot, hlenh]
    · intro q hl
      rw [Mem.live_write]
      exact hl
    · intro b hbne
      cases hb : b.m_data with
      | buf o => unfold activeList; simp only [hb]
      | heap q =>
        unfold activeList
        simp only [hb]
        exact Mem.readBlock_write_ne _ _ _ _ (by
          intro he'
          rw [hb, hheap] at hbne
          exact hbne (by rw [he']))

theorem elemsIn_heap_lit (obj sz cap id : Nat) (buf : List T) (m : Mem T) :
    (small_vector.mk obj sz cap (.heap id) buf : small_vector T N).elemsIn m =
      (m.readBlock id).take sz := rfl

/-- The copy constructor's append loop: with enough capacity reserved up
front, it appends the source elements `[i, i+cnt)` one by one, never
growing, never touching the source's region. -/
theorem copyLoop_spec (src : small_vector T N) :
    ∀ (cnt i : Nat) (t : small_vector T N) (m : Mem T),
      m.wfb = true →
      t.m_size + cnt ≤ t.m_capacity →
      t.regionOK m →
      t.m_data ≠ src.m_data →
      ((copyLoop src i cnt t m).1.elemsIn (copyLoop src i cnt t m).2 =
          t.elemsIn m ++ (List.range cnt).map (fun j => src.read m (i + j)) ∧
        src.activeList (copyLoop src i cnt t m).2 = src.activeList m ∧
        (copyLoop src i cnt t m).1.m_data = t.m_data ∧
        (copyLoop src i cnt t m).1.m_capacity = t.m_capacity ∧
        (copyLoop src i cnt t m).1.m_size = t.m_size + cnt ∧
        (copyLoop src i cnt t m).2.wfb = true ∧
        (copyLoop src i cnt t m).1.regionOK (copyLoop src i cnt t m).2 ∧
        (∀ id, m.live id = true → (copyLoop src i cnt t m).2.live id = true)) := by
  intro cnt
  induction cnt with
  | zero =>
    intro i t m hm hsz hreg hne
    exact ⟨by simp [copyLoop], rfl, rfl, rfl, rfl, hm, hreg, fun _ hl => hl⟩
  | succ c ih =>
    intro i t m hm hsz hreg hne
    obtain ⟨hobj, hcap, hdata, hsize, helems, hwfb, hregK, hlivp, hact⟩ :=
      emplace_no_grow t m (src.read m i) (by omega) hreg hm
    have hstep : copyLoop src i (c + 1) t m =
        copyLoop src (i + 1) c (t.emplace_back m (src.read m i)).1
          (t.emplace_back m (src.read m i)).2 := rfl
    rw [hstep]
    have hne' : (t.emplace_back m (src.read m i)).1.m_data ≠ src.m_data := by
      rw [hdata]; exact hne
    have hactsrc : src.activeList ((t.emplace_back m (src.read m i)).2) =
        src.activeList m := hact src (fun he => hne he.symm)
    obtain ⟨ih1, ih2, ih3, ih4, ih5, ih6, ih7, ih8⟩ :=
      ih (i + 1) (t.emplace_back m (src.read m i)).1
        (t.emplace_back m (src.read m i)).2 hwfb
        (by rw [hsize, hcap]; omega) hregK hne'
    refine ⟨?_, ?_, ?_, ?_, ?_, ih6, ih7, ?_⟩
    · rw [ih1, helems]
      have hrd : (List.range c).map
          (fun j => src.read ((t.emplace_back m (src.read m i)).2) (i + 1 + j)) =
          (List.range c).map (fun j => src.read m (i + 1 + j)) :=
        List.map_congr_left (fun j _ => read_congr src _ _ hactsrc _)
      rw [hrd, List.append_assoc]
      congr 1
      rw [List.range_succ_eq_map, List.map_cons, List.map_map,
        List.singleton_append, Nat.add_zero]
      congr 1
      apply List.map_congr_left
      intro j _
      show src.read m (i + 1 + j) = src.read m (i + (j + 1))
      congr 1
      omega
    · rw [ih2, hactsrc]
    · rw [ih3, hdata]
    · rw [ih4, hcap]
    · rw [ih5, hsize]
      omega
    · intro id hl
      exact ih8 id (hlivp id hl)

end Lemmas

section ClaimEvals

open small_vector
open Traces

/-- Claim C1 (divergence evaluation): there is a reachable state — a
default-constructed `small_vector<Nat, 2>` after `reserve(5)` — that is
heap-backed (`m_data ≠ buffer()`), yet the implementation's mode test
`uses_buffer()` (the size comparison `m_size <= N`) reports buffer mode.
The mode test consulted by move construction, `swap`, `reserve` and the
destructor is therefore not the pointer comparison. -/
theorem c1_mode_test_is_size_not_pointer :
    ReachCore Nat 2 rsv.1 rsv.2 ∧ rsv.1.uses_buffer = true ∧
      rsv.1.m_data ≠ rsv.1.bufferAddr := by
  refine ⟨?_, by decide, by decide⟩
  exact ReachCore.reserveStep _ _ 5 (ReachCore.newSV 0 [] Mem.empty)

/-- Claim C2 (divergence evaluation): on `small_vector<Nat, 4>{10,20,30}`,
`reserve(10)` with element construction failing at transfer index 2
rethrows but destroys only one of the two already-constructed elements in
the new block; and with the failure at transfer index 0 the exception is
swallowed (`threw = false`) and the container is left with `m_size = 0`
and the new block adopted — not its pre-call state of size 3. -/
theorem c2_reserve_rollback_is_broken :
    (ls0.1.reserveF (fun i => i == 2) ls0.2 10).threw = true ∧
    (ls0.1.reserveF (fun i => i == 2) ls0.2 10).constructedInNew = 2 ∧
    (ls0.1.reserveF (fun i => i == 2) ls0.2 10).destroyedInNew = 1 ∧
    (ls0.1.reserveF (fun i => i == 0) ls0.2 10).threw = false ∧
    (ls0.1.reserveF (fun i => i == 0) ls0.2 10).sv.m_size = 0 ∧
    ls0.1.m_size = 3 := by
  decide

/-- Claim C3 (divergence evaluation): after three appends into a
`small_vector<Nat, 2>` the container is heap-backed, yet the destructor's
free branch does not run (`clear()` zeroes `m_size` before the
`!uses_buffer()` test, which then always sees `0 ≤ N`) and the heap block
stays live; likewise `reserve(10)` abandons the old heap block without
freeing it. -/
theorem c3_heap_block_never_freed :
    pp3.1.m_data = .heap 0 ∧
    (pp3.1.destruct pp3.2).2 = false ∧
    ((pp3.1.destruct pp3.2).1.live 0) = true ∧
    (pp3.1.reserve pp3.2 10).1.m_data = .heap 1 ∧
    ((pp3.1.reserve pp3.2 10).2.live 0) = true := by
  decide

/-- Claim C5 (divergence evaluation): with `a` heap-backed at size 1
(misclassified as buffer mode by `uses_buffer()`) and `b` heap-backed at
size 3, `a.swap(b); a.swap(b);` does not restore `a`: its `m_data` ends
at its inline buffer instead of its original heap block and its first
element reads 0 instead of 1.  The unconditional exchange of sizes and
capacities does hold on each swap. -/
theorem c5_double_swap_not_identity :
    sw2.1.m_data = sw2.1.bufferAddr ∧ av1.1.m_data = .heap 0 ∧
    sw2.1.read bv0.2 0 = 0 ∧ av1.1.read bv0.2 0 = 1 ∧
    sw1.1.m_size = bv0.1.m_size ∧ sw1.1.m_capacity = bv0.1.m_capacity ∧
    sw1.2.m_size = av1.1.m_size ∧ sw1.2.m_capacity = av1.1.m_capacity := by
  decide

/-- Claim C6 (divergence evaluation): move construction from a
heap-backed source of size 1 (misclassified as buffer mode) leaves the
target pointing at its own inline buffer — whose slot 0 reads 0, not the
source's element 1 — instead of transferring the source's heap pointer;
the source's heap block (still holding the element) is abandoned. -/
theorem c6_move_ctor_loses_heap_elements :
    av1.1.m_data = .heap 0 ∧ av1.1.read bv0.2 0 = 1 ∧
    mv.1.m_data = mv.1.bufferAddr ∧ mv.1.m_size = 1 ∧
    mv.1.read bv0.2 0 = 0 ∧
    mv.2.m_data = .buf mv.2.obj ∧ mv.2.m_size = 0 ∧
    bv0.2.live 0 = true := by
  decide

/-- Claim C4 (counterexample): `small_vector<Nat, 4>{1, 2}` is a
reachable, buffer-backed state whose capacity is the list length 2, not
`N = 4`. -/
theorem c4_counterexample_capacity_ne_N :
    ReachCore Nat 4 cl0.1 cl0.2 ∧ cl0.1.m_data = .buf cl0.1.obj ∧
      cl0.1.m_capacity ≠ 4 := by
  refine ⟨ReachCore.ofListSV 0 [] [1, 2] Mem.empty, by decide, by decide⟩

/-- Witness for the amended claim C4 at a concrete input: the default
constructor for `N = 3` yields a reachable buffer-backed state, and the
amended invariant gives `m_capacity ≤ 3`. -/
theorem c4_buffer_mode_capacity_le_N_witness :
    ReachCore Nat 3 (small_vector.new 0 []) Mem.empty ∧
      (small_vector.new 0 [] : small_vector Nat 3).m_capacity ≤ 3 :=
  ⟨ReachCore.newSV 0 [] Mem.empty,
    c4_buffer_mode_capacity_le_N (small_vector.new 0 []) Mem.empty
      (ReachCore.newSV 0 [] Mem.empty) rfl⟩

/-- Claim C7: the initializer-list constructor yields `m_size` and
`m_capacity` both equal to the list length (even below `N`), with all
elements copy-constructed in order, and allocates one heap block of
exactly that many slots if and only if the length exceeds `N` (otherwise
the inline buffer is used and the heap is untouched). -/
theorem c7_ofList_exact_capacity {T : Type} {N : Nat} [Inhabited T]
    (obj : Nat) (g l : List T) (m : Mem T) (hm : m.wfb = true) :
    (small_vector.ofList (N := N) obj g l m).1.m_size = l.length ∧
    (small_vector.ofList (N := N) obj g l m).1.m_capacity = l.length ∧
    (small_vector.ofList (N := N) obj g l m).1.elemsIn
      (small_vector.ofList (N := N) obj g l m).2 = l ∧
    (if N < l.length then
      (small_vector.ofList (N := N) obj g l m).1.m_data = .heap m.nextId ∧
      ((small_vector.ofList (N := N) obj g l m).2).readBlock m.nextId = l ∧
      ((small_vector.ofList (N := N) obj g l m).2).blocks.length =
        m.blocks.length + 1
     else
      (small_vector.ofList (N := N) obj g l m).1.m_data = .buf obj ∧
      (small_vector.ofList (N := N) obj g l m).2 = m) := by
  by_cases hl : N < l.length
  · have hof : small_vector.ofList (N := N) obj g l m =
        (⟨obj, l.length, l.length, .heap (m.alloc l.length l).1, padTo N g⟩,
          (m.alloc l.length l).2) := by
      unfold small_vector.ofList
      rw [if_pos hl]
    rw [hof, if_pos hl]
    have hrb : ((m.alloc l.length l).2).readBlock m.nextId =
        padTo l.length l := Mem.readBlock_alloc_self' m l.length l hm
    have hpd : padTo l.length l = l := padTo_eq_self l.length l rfl
    refine ⟨rfl, rfl, ?_, rfl, by rw [hrb, hpd], by simp [Mem.alloc]⟩
    show List.take l.length
        (((m.alloc l.length l).2).readBlock (m.alloc l.length l).1) = l
    rw [Mem.readBlock_alloc_self m l.length l hm, hpd, List.take_length]
  · have hof : small_vector.ofList (N := N) obj g l m =
        (⟨obj, l.length, l.length, .buf obj,
          l ++ (padTo N g).drop l.length⟩, m) := by
      unfold small_vector.ofList
      rw [if_neg hl]
    rw [hof, if_neg hl]
    refine ⟨rfl, rfl, ?_, rfl, rfl⟩
    show List.take l.length
        (if obj = obj then l ++ (padTo N g).drop l.length else []) = l
    rw [if_pos rfl]
    exact List.take_left' rfl

/-- Witness for claim C7 at a concrete input: `small_vector<Nat, 2>`
constructed from the list `[5, 6, 7]` in the empty heap. -/
theorem c7_ofList_exact_capacity_witness :
    Mem.wfb (Mem.empty : Mem Nat) = true ∧
    ((small_vector.ofList (N := 2) 0 [] [5, 6, 7] Mem.empty).1.m_size = 3 ∧
     (small_vector.ofList (N := 2) 0 [] [5, 6, 7] Mem.empty).1.m_capacity = 3 ∧
     (small_vector.ofList (N := 2) 0 [] [5, 6, 7] Mem.empty).1.elemsIn
       (small_vector.ofList (N := 2) 0 [] [5, 6, 7] Mem.empty).2 = [5, 6, 7] ∧
     (if 2 < 3 then
       (small_vector.ofList (N := 2) 0 [] [5, 6, 7] Mem.empty).1.m_data =
         .heap (Mem.empty : Mem Nat).nextId ∧
       ((small_vector.ofList (N := 2) 0 [] [5, 6, 7] Mem.empty).2).readBlock
         (Mem.empty : Mem Nat).nextId = [5, 6, 7] ∧
       ((small_vector.ofList (N := 2) 0 [] [5, 6, 7] Mem.empty).2).blocks.length =
         (Mem.empty : Mem Nat).blocks.length + 1
      else
       (small_vector.ofList (N := 2) 0 [] [5, 6, 7] Mem.empty).1.m_data =
         .buf 0 ∧
       (small_vector.ofList (N := 2) 0 [] [5, 6, 7] Mem.empty).2 =
         Mem.empty)) :=
  ⟨by decide,
    c7_ofList_exact_capacity (N := 2) 0 [] [5, 6, 7] Mem.empty (by decide)⟩

/-- Claim C8: `emplace_back`/`push_back` appends exactly one element at
index `m_size` (the element sequence is extended by `[v]`) and increments
`m_size`; if `m_size == m_capacity` beforehand the capacity first becomes
`max(1, 2 * capacity)` via the growth step, and otherwise the capacity and
the active storage region are unchanged. -/
theorem c8_emplace_back_appends {T : Type} {N : Nat} [Inhabited T]
    (s : small_vector T N) (m : Mem T) (v : T) (h : s.wfb m = true) :
    (s.emplace_back m v).1.m_size = s.m_size + 1 ∧
    (s.emplace_back m v).1.elemsIn ((s.emplace_back m v).2) =
      s.elemsIn m ++ [v] ∧
    (if s.m_size = s.m_capacity then
      (s.emplace_back m v).1.m_capacity = max 1 (2 * s.m_capacity)
     else
      (s.emplace_back m v).1.m_capacity = s.m_capacity ∧
      (s.emplace_back m v).1.m_data = s.m_data) := by
  have hsz := wfb_size_le s m h
  have hm := wfb_mem s m h
  by_cases hfull : s.m_size = s.m_capacity
  · rw [if_pos hfull]
    have he : s.emplace_back m v =
        construct_at
          (⟨s.obj, s.m_size, (if s.m_capacity = 0 then 1 else 2 * s.m_capacity),
            .heap m.nextId, s.m_buffer⟩ : small_vector T N)
          ((m.alloc (if s.m_capacity = 0 then 1 else 2 * s.m_capacity)
            (s.elemsIn m)).2) v := by
      unfold small_vector.emplace_back
      rw [growIfFull_eq_of_full s m (by omega),
        reserve_eq_of_lt s m _ (grow_cap_lt _)]
    rw [he]
    have hlive : ((m.alloc (if s.m_capacity = 0 then 1 else 2 * s.m_capacity)
        (s.elemsIn m)).2).live m.nextId = true := by
      rw [Mem.live_alloc]
      simp
    have hrb := Mem.readBlock_alloc_self' m
      (if s.m_capacity = 0 then 1 else 2 * s.m_capacity) (s.elemsIn m) hm
    have hel : (s.elemsIn m).length = s.m_size := elemsIn_length s m h
    have hclt : s.m_capacity < (if s.m_capacity = 0 then 1 else 2 * s.m_capacity) :=
      grow_cap_lt _
    refine ⟨rfl, ?_, ?_⟩
    · show (small_vector.mk s.obj (s.m_size + 1)
          (if s.m_capacity = 0 then 1 else 2 * s.m_capacity)
          (.heap m.nextId) s.m_buffer : small_vector T N).elemsIn
          (((m.alloc (if s.m_capacity = 0 then 1 else 2 * s.m_capacity)
              (s.elemsIn m)).2).write m.nextId
            (writeSlot (((m.alloc (if s.m_capacity = 0 then 1 else 2 * s.m_capacity)
              (s.elemsIn m)).2).readBlock m.nextId) s.m_size v)) =
          s.elemsIn m ++ [v]
      rw [elemsIn_heap_lit, Mem.readBlock_write_self _ _ _ hlive, hrb]
      simp only [writeSlot]
      rw [take_succ_set v _ s.m_size (by rw [padTo_length]; omega)]
      rw [take_padTo_eq _ s.m_size _ hel (by omega)]
    · show (if s.m_capacity = 0 then 1 else 2 * s.m_capacity) =
        max 1 (2 * s.m_capacity)
      by_cases h0 : s.m_capacity = 0
      · rw [if_pos h0, h0]
        simp
      · rw [if_neg h0, Nat.max_eq_right (by omega)]
  · rw [if_neg hfull]
    obtain ⟨_, hcap, hdata, hsize, helems, _, _, _, _⟩ :=
      emplace_no_grow s m v (by omega) (wfb_regionOK s m h) hm
    exact ⟨hsize, helems, hcap, hdata⟩

/-- Witness for claim C8 at a concrete input: appending 9 to a default
`small_vector<Nat, 2>` (no growth) in the empty heap. -/
theorem c8_emplace_back_appends_witness :
    (small_vector.new 0 [] : small_vector Nat 2).wfb Mem.empty = true ∧
    (((small_vector.new 0 [] : small_vector Nat 2).emplace_back Mem.empty 9).1.m_size =
      (small_vector.new 0 [] : small_vector Nat 2).m_size + 1 ∧
     ((small_vector.new 0 [] : small_vector Nat 2).emplace_back Mem.empty 9).1.elemsIn
       (((small_vector.new 0 [] : small_vector Nat 2).emplace_back Mem.empty 9).2) =
       (small_vector.new 0 [] : small_vector Nat 2).elemsIn Mem.empty ++ [9] ∧
     (if (small_vector.new 0 [] : small_vector Nat 2).m_size =
         (small_vector.new 0 [] : small_vector Nat 2).m_capacity then
       ((small_vector.new 0 [] : small_vector Nat 2).emplace_back Mem.empty 9).1.m_capacity =
         max 1 (2 * (small_vector.new 0 [] : small_vector Nat 2).m_capacity)
      else
       ((small_vector.new 0 [] : small_vector Nat 2).emplace_back Mem.empty 9).1.m_capacity =
         (small_vector.new 0 [] : small_vector Nat 2).m_capacity ∧
       ((small_vector.new 0 [] : small_vector Nat 2).emplace_back Mem.empty 9).1.m_data =
         (small_vector.new 0 [] : small_vector Nat 2).m_data)) :=
  ⟨by decide,
    c8_emplace_back_appends (small_vector.new 0 []) Mem.empty 9 (by decide)⟩

/-- Claim C10: if the construction of the new element in `emplace_back`
throws after the growth step has completed, the exception propagates with
`m_size` unchanged, all previously stored elements keeping their values,
and the failed element never counted; only the capacity may have grown
(by the usual doubling rule). -/
theorem c10_emplace_fail_keeps_state {T : Type} {N : Nat} [Inhabited T]
    (s : small_vector T N) (m : Mem T) (v : T) (h : s.wfb m = true) :
    (s.emplaceF true m v).2.2 = true ∧
    (s.emplaceF true m v).1.m_size = s.m_size ∧
    (s.emplaceF true m v).1.elemsIn ((s.emplaceF true m v).2.1) =
      s.elemsIn m ∧
    (if s.m_size = s.m_capacity then
      (s.emplaceF true m v).1.m_capacity = max 1 (2 * s.m_capacity)
     else
      (s.emplaceF true m v).1.m_capacity = s.m_capacity ∧
      (s.emplaceF true m v).1.m_data = s.m_data) := by
  have hsz := wfb_size_le s m h
  have hm := wfb_mem s m h
  have hef : s.emplaceF true m v =
      ((growIfFull s m).1, (growIfFull s m).2, true) := by
    unfold small_vector.emplaceF
    rw [if_pos rfl]
  rw [hef]
  by_cases hfull : s.m_size = s.m_capacity
  · rw [if_pos hfull]
    rw [growIfFull_eq_of_full s m (by omega),
      reserve_eq_of_lt s m _ (grow_cap_lt _)]
    have hrb := Mem.readBlock_alloc_self' m
      (if s.m_capacity = 0 then 1 else 2 * s.m_capacity) (s.elemsIn m) hm
    have hel : (s.elemsIn m).length = s.m_size := elemsIn_length s m h
    refine ⟨rfl, rfl, ?_, ?_⟩
    · show (small_vector.mk s.obj s.m_size
          (if s.m_capacity = 0 then 1 else 2 * s.m_capacity)
          (.heap m.nextId) s.m_buffer : small_vector T N).elemsIn
          ((m.alloc (if s.m_capacity = 0 then 1 else 2 * s.m_capacity)
            (s.elemsIn m)).2) = s.elemsIn m
      rw [elemsIn_heap_lit, hrb]
      exact take_padTo_eq _ s.m_size _ hel
        (by have := grow_cap_lt s.m_capacity; omega)
    · show (if s.m_capacity = 0 then 1 else 2 * s.m_capacity) =
        max 1 (2 * s.m_capacity)
      by_cases h0 : s.m_capacity = 0
      · rw [if_pos h0, h0]
        simp
      · rw [if_neg h0, Nat.max_eq_right (by omega)]
  · rw [if_neg hfull, growIfFull_eq_of_room s m (by omega)]
    exact ⟨rfl, rfl, rfl, rfl, rfl⟩

/-- Witness for claim C10 at a concrete input: a failing append on a full
default `small_vector<Nat, 0>` (growth to capacity 1 happens, the element
construction fails, the container stays empty). -/
theorem c10_emplace_fail_keeps_state_witness :
    (small_vector.new 0 [] : small_vector Nat 0).wfb Mem.empty = true ∧
    (((small_vector.new 0 [] : small_vector Nat 0).emplaceF true Mem.empty 7).2.2 = true ∧
     ((small_vector.new 0 [] : small_vector Nat 0).emplaceF true Mem.empty 7).1.m_size =
       (small_vector.new 0 [] : small_vector Nat 0).m_size ∧
     ((small_vector.new 0 [] : small_vector Nat 0).emplaceF true Mem.empty 7).1.elemsIn
       (((small_vector.new 0 [] : small_vector Nat 0).emplaceF true Mem.empty 7).2.1) =
       (small_vector.new 0 [] : small_vector Nat 0).elemsIn Mem.empty ∧
     (if (small_vector.new 0 [] : small_vector Nat 0).m_size =
         (small_vector.new 0 [] : small_vector Nat 0).m_capacity then
       ((small_vector.new 0 [] : small_vector Nat 0).emplaceF true Mem.empty 7).1.m_capacity =
         max 1 (2 * (small_vector.new 0 [] : small_vector Nat 0).m_capacity)
      else
       ((small_vector.new 0 [] : small_vector Nat 0).emplaceF true Mem.empty 7).1.m_capacity =
         (small_vector.new 0 [] : small_vector Nat 0).m_capacity ∧
       ((small_vector.new 0 [] : small_vector Nat 0).emplaceF true Mem.empty 7).1.m_data =
         (small_vector.new 0 [] : small_vector Nat 0).m_data)) :=
  ⟨by decide,
    c10_emplace_fail_keeps_state (small_vector.new 0 []) Mem.empty 7 (by decide)⟩

/-- Claim C9: copy construction produces a container with the same
element sequence as the source, stored in a region distinct from the
source's active region (its own inline buffer or a freshly allocated
block); the copy leaves the source's elements untouched, and a subsequent
mutation of the copy (an append of `w`) still leaves the source's
elements unchanged — the storages are independent. -/
theorem c9_copy_ctor_deep_copy {T : Type} {N : Nat} [Inhabited T]
    (src : small_vector T N) (m : Mem T) (obj : Nat) (g : List T) (w : T)
    (h : src.wfb m = true) (ho : obj ≠ src.obj) :
    (copyCtor obj g src m).1.elemsIn (copyCtor obj g src m).2 =
      src.elemsIn m ∧
    src.elemsIn (copyCtor obj g src m).2 = src.elemsIn m ∧
    (copyCtor obj g src m).1.m_data ≠ src.m_data ∧
    src.elemsIn
      (((copyCtor obj g src m).1.emplace_back (copyCtor obj g src m).2 w).2) =
      src.elemsIn m := by
  have hm := wfb_mem src m h
  have hsrclive : ∀ id, src.m_data = .heap id → m.live id = true :=
    fun id hd => (wfb_heap src m id h hd).1
  have hsrcne0 : (Addr.buf obj) ≠ src.m_data := by
    cases hd : src.m_data with
    | buf o =>
      obtain ⟨hoo, _⟩ := wfb_buf src m o h hd
      intro hcon
      injection hcon with h1
      exact ho (h1.trans hoo)
    | heap q => intro hcon; exact Addr.noConfusion hcon
  have hlen := activeList_len_ge src m h
  have hmap : (List.range src.m_size).map (fun j => src.read m j) =
      src.elemsIn m := map_read_range (src.activeList m) src.m_size hlen
  by_cases hbig :
      (small_vector.new (N := N) obj g : small_vector T N).m_capacity <
        src.m_size
  · -- heap-backed copy: reserve(src.size) first
    have hcc : copyCtor obj g src m =
        copyLoop src 0 src.m_size
          ((small_vector.new obj g : small_vector T N).reserve m src.m_size).1
          ((small_vector.new obj g : small_vector T N).reserve m src.m_size).2 := by
      unfold copyCtor
      rw [if_pos hbig]
    have hres := reserve_eq_of_lt (small_vector.new obj g : small_vector T N)
      m src.m_size hbig
    have hm1 : (((small_vector.new obj g : small_vector T N).reserve m
        src.m_size).2).wfb = true := by
      rw [hres]
      exact Mem.wfb_alloc m _ _ hm
    have hsz1 : (((small_vector.new obj g : small_vector T N).reserve m
        src.m_size).1).m_size + src.m_size ≤
        (((small_vector.new obj g : small_vector T N).reserve m
          src.m_size).1).m_capacity := by
      rw [hres]
      show (small_vector.new obj g : small_vector T N).m_size + src.m_size ≤
        src.m_size
      show 0 + src.m_size ≤ src.m_size
      omega
    have hreg1 : (((small_vector.new obj g : small_vector T N).reserve m
        src.m_size).1).regionOK
        (((small_vector.new obj g : small_vector T N).reserve m
          src.m_size).2) := by
      rw [hres]
      refine Or.inr ⟨m.nextId, rfl, ?_, ?_⟩
      · rw [Mem.live_alloc]
        simp
      · rw [Mem.readBlock_alloc_self' m _ _ hm, padTo_length]
    have hne1 : (((small_vector.new obj g : small_vector T N).reserve m
        src.m_size).1).m_data ≠ src.m_data := by
      rw [hres]
      show Addr.heap m.nextId ≠ src.m_data
      cases hd : src.m_data with
      | buf o => intro hcon; exact Addr.noConfusion hcon
      | heap sid =>
        intro hcon
        have hlt := Mem.live_imp_lt m sid hm (hsrclive sid hd)
        injection hcon with h1
        omega
    obtain ⟨l1, l2, l3, l4, l5, l6, l7, l8⟩ :=
      copyLoop_spec src src.m_size 0
        ((small_vector.new obj g : small_vector T N).reserve m src.m_size).1
        ((small_vector.new obj g : small_vector T N).reserve m src.m_size).2
        hm1 hsz1 hreg1 hne1
    have hact1 : src.activeList
        (((small_vector.new obj g : small_vector T N).reserve m
          src.m_size).2) = src.activeList m := by
      rw [hres]
      exact activeList_alloc_other src m _ _ hm hsrclive
    have ht0 : (((small_vector.new obj g : small_vector T N).reserve m
        src.m_size).1).elemsIn
        (((small_vector.new obj g : small_vector T N).reserve m
          src.m_size).2) = ([] : List T) := by
      rw [hres]
      rfl
    have hmap1 : (List.range src.m_size).map
        (fun j => src.read (((small_vector.new obj g : small_vector T N).reserve
          m src.m_size).2) (0 + j)) =
        (List.range src.m_size).map (fun j => src.read m j) :=
      List.map_congr_left (fun j _ => by
        rw [Nat.zero_add]
        exact read_congr src _ m hact1 j)
    have h2 : src.elemsIn (copyCtor obj g src m).2 = src.elemsIn m := by
      rw [hcc]
      unfold small_vector.elemsIn
      rw [l2, hact1]
    have h3 : (copyCtor obj g src m).1.m_data ≠ src.m_data := by
      rw [hcc, l3]
      exact hne1
    refine ⟨?_, h2, h3, ?_⟩
    · rw [hcc, l1, ht0, List.nil_append, hmap1, hmap]
    · have hlive2 : ∀ id, src.m_data = .heap id →
          ((copyCtor obj g src m).2).live id = true := by
        intro id hd
        rw [hcc]
        apply l8
        rw [hres]
        rw [Mem.live_alloc, hsrclive id hd]
        simp
      have hwf2 : ((copyCtor obj g src m).2).wfb = true := by
        rw [hcc]; exact l6
      rw [elemsIn_emplace_other (copyCtor obj g src m).1 src
        (copyCtor obj g src m).2 w hwf2 hlive2 h3]
      exact h2
  · -- buffer-backed copy: no reserve
    have hcc : copyCtor obj g src m =
        copyLoop src 0 src.m_size (small_vector.new obj g) m := by
      unfold copyCtor
      rw [if_neg hbig]
    have hsz1 : (small_vector.new obj g : small_vector T N).m_size +
        src.m_size ≤
        (small_vector.new obj g : small_vector T N).m_capacity := by
      show 0 + src.m_size ≤ N
      have hble : src.m_size ≤ N := Nat.le_of_not_lt hbig
      omega
    have hreg1 : (small_vector.new obj g : small_vector T N).regionOK m :=
      Or.inl ⟨rfl, padTo_length N g, Nat.le_refl N⟩
    obtain ⟨l1, l2, l3, l4, l5, l6, l7, l8⟩ :=
      copyLoop_spec src src.m_size 0 (small_vector.new obj g) m
        hm hsz1 hreg1 hsrcne0
    have hmap1 : (List.range src.m_size).map
        (fun j => src.read m (0 + j)) =
        (List.range src.m_size).map (fun j => src.read m j) :=
      List.map_congr_left (fun j _ => by rw [Nat.zero_add])
    have h2 : src.elemsIn (copyCtor obj g src m).2 = src.elemsIn m := by
      rw [hcc]
      unfold small_vector.elemsIn
      rw [l2]
    have h3 : (copyCtor obj g src m).1.m_data ≠ src.m_data := by
      rw [hcc, l3]
      exact hsrcne0
    refine ⟨?_, h2, h3, ?_⟩
    · rw [hcc, l1]
      have ht0 : (small_vector.new obj g : small_vector T N).elemsIn m =
          ([] : List T) := rfl
      rw [ht0, List.nil_append, hmap1, hmap]
    · have hlive2 : ∀ id, src.m_data = .heap id →
          ((copyCtor obj g src m).2).live id = true := by
        intro id hd
        rw [hcc]
        exact l8 id (hsrclive id hd)
      have hwf2 : ((copyCtor obj g src m).2).wfb = true := by
        rw [hcc]; exact l6
      rw [elemsIn_emplace_other (copyCtor obj g src m).1 src
        (copyCtor obj g src m).2 w hwf2 hlive2 h3]
      exact h2

/-- Witness for claim C9 at a concrete input: copying the buffer-backed
`small_vector<Nat, 2>{7}` into a fresh container object, then appending
9 to the copy. -/
theorem c9_copy_ctor_deep_copy_witness :
    (small_vector.ofList (N := 2) 0 [] [7] Mem.empty).1.wfb Mem.empty = true ∧
    (1 : Nat) ≠ (small_vector.ofList (N := 2) 0 [] [7] Mem.empty).1.obj ∧
    ((copyCtor 1 [] (small_vector.ofList (N := 2) 0 [] [7] Mem.empty).1
        Mem.empty).1.elemsIn
      (copyCtor 1 [] (small_vector.ofList (N := 2) 0 [] [7] Mem.empty).1
        Mem.empty).2 =
      (small_vector.ofList (N := 2) 0 [] [7] Mem.empty).1.elemsIn Mem.empty ∧
     (small_vector.ofList (N := 2) 0 [] [7] Mem.empty).1.elemsIn
       (copyCtor 1 [] (small_vector.ofList (N := 2) 0 [] [7] Mem.empty).1
         Mem.empty).2 =
       (small_vector.ofList (N := 2) 0 [] [7] Mem.empty).1.elemsIn Mem.empty ∧
     (copyCtor 1 [] (small_vector.ofList (N := 2) 0 [] [7] Mem.empty).1
       Mem.empty).1.m_data ≠
       (small_vector.ofList (N := 2) 0 [] [7] Mem.empty).1.m_data ∧
     (small_vector.ofList (N := 2) 0 [] [7] Mem.empty).1.elemsIn
       (((copyCtor 1 [] (small_vector.ofList (N := 2) 0 [] [7] Mem.empty).1
           Mem.empty).1.emplace_back
         (copyCtor 1 [] (small_vector.ofList (N := 2) 0 [] [7] Mem.empty).1
           Mem.empty).2 9).2) =
       (small_vector.ofList (N := 2) 0 [] [7] Mem.empty).1.elemsIn
         Mem.empty) :=
  ⟨by decide, by decide,
    c9_copy_ctor_deep_copy
      (small_vector.ofList (N := 2) 0 [] [7] Mem.empty).1 Mem.empty 1 [] 9
      (by decide) (by decide)⟩

end ClaimEvals

end MpcSmallVector
